import Mathlib

/-!
Verification of the discord-irc bridge (`src/lib/bot.js`) against its
natural-language specification.  The JavaScript source is shallowly embedded:
JS strings become Lean `String`s, JS objects keyed by strings become
association lists `List (String × String)` (iterated in insertion order, as
`_.forOwn` does for string keys), lodash `_.invert` becomes a last-write-wins
reverse lookup, and code that can throw a `TypeError` is embedded as a function
into `Option` where `none` marks the thrown exception.
-/

namespace DiscordIrc

/-! ## ChannelMap construction (`Bot.constructor`, bot.js lines 36-44) -/

/-- JS `String.prototype.toLowerCase` (per-character lowering; our claims only
exercise the ASCII range, where Lean's `Char.toLower` and JS agree). -/
def jsToLower (s : String) : String :=
  String.mk (s.data.map Char.toLower)

/-- `ircChan.split(' ')[0].toLowerCase()` — the canonical IRC channel name
derived from a raw mapping value: everything before the first space,
lowercased.  (`split(' ')[0]` is exactly the longest space-free prefix.) -/
def ircCanonical (s : String) : String :=
  jsToLower (String.mk (s.data.takeWhile (fun c => c ≠ ' ')))

/-- The `channelMapping` object built in the constructor: each raw value is
replaced by its canonical IRC name, keys (Discord channel identifiers) kept
as given.  Raw JS objects have distinct keys; we keep the association list
general and state key-distinctness where a theorem needs it. -/
def buildChannelMapping (raw : List (String × String)) : List (String × String) :=
  raw.map (fun p => (p.1, ircCanonical p.2))

/-- Property lookup on a JS object modelled as an association list: the first
pair with the requested key (keys of a real JS object are distinct, so first
vs. last does not matter for lookups on `channelMapping` itself). -/
def forwardLookup (m : List (String × String)) (c : String) : Option String :=
  (m.find? (fun p => p.1 == c)).map Prod.snd

/-- Lookup in `_.invert(m)`: lodash writes `inv[value] = key` over the pairs in
order, so a value occurring twice is won by the **last** key. -/
def invertLookup (m : List (String × String)) (v : String) : Option String :=
  (m.reverse.find? (fun p => p.2 == v)).map Prod.fst

/-- Modelled from the spec: `validateChannelMapping` lives in
`src/lib/validators.js`, which is not among the provided sources.  Per spec
§4.1 it rejects a raw mapping with fewer than one pair, an empty Discord key,
or an empty IRC name after the split. -/
def validMapping (raw : List (String × String)) : Bool :=
  !raw.isEmpty && raw.all (fun p => p.1 != "" && ircCanonical p.2 != "")

theorem invertLookup_of_find? {m : List (String × String)} {c v : String}
    (hnd : (m.map Prod.snd).Nodup)
    (hf : forwardLookup m c = some v) :
    invertLookup m v = some c := by
  induction m with
  | nil => simp [forwardLookup] at hf
  | cons p t ih =>
    rcases p with ⟨k, w⟩
    simp only [List.map_cons, List.nodup_cons] at hnd
    by_cases hk : k = c
    · subst hk
      rw [forwardLookup, List.find?_cons_of_pos _ (by simp)] at hf
      obtain rfl : v = w := by simpa using hf.symm
      have hnone : t.reverse.find? (fun p => p.2 == v) = none := by
        rw [List.find?_eq_none]
        intro x hx
        simp only [List.mem_reverse] at hx
        have : x.2 ∈ t.map Prod.snd := List.mem_map_of_mem Prod.snd hx
        simp only [beq_iff_eq]
        intro hxv
        exact hnd.1 (hxv ▸ this)
      simp [invertLookup, List.find?_append, hnone]
    · rw [forwardLookup, List.find?_cons_of_neg _ (by simpa using hk)] at hf
      have ihv := ih hnd.2 hf
      -- the found pair in `t.reverse` already produced a hit, so the appended
      -- `(k, w)` pair is never reached
      simp only [invertLookup] at ihv ⊢
      rw [List.reverse_cons, List.find?_append]
      rcases hfind : t.reverse.find? (fun p => p.2 == v) with _ | q
      · rw [hfind] at ihv; simp at ihv
      · rw [hfind] at ihv ⊢
        simpa using ihv

/-- Lookup of a Discord key in the raw (pre-construction) mapping object. -/
def rawLookup (raw : List (String × String)) (c : String) : Option String :=
  (raw.find? (fun p => p.1 == c)).map Prod.snd

theorem forwardLookup_build {raw : List (String × String)} {c s : String}
    (h : rawLookup raw c = some s) :
    forwardLookup (buildChannelMapping raw) c = some (ircCanonical s) := by
  induction raw with
  | nil => simp [rawLookup] at h
  | cons p t ih =>
    rcases p with ⟨k, w⟩
    by_cases hk : k = c
    · subst hk
      rw [rawLookup, List.find?_cons_of_pos _ (by simp)] at h
      obtain rfl : s = w := by simpa using h.symm
      rw [buildChannelMapping, List.map_cons, forwardLookup,
        List.find?_cons_of_pos _ (by simp)]
      rfl
    · rw [rawLookup, List.find?_cons_of_neg _ (by simpa using hk)] at h
      rw [buildChannelMapping, List.map_cons, forwardLookup,
        List.find?_cons_of_neg _ (by simpa using hk)]
      exact ih h

/-- Claim C1 counterexample: for the valid raw mapping
`{"#Discord": "#irc"}` the forward map sends `"#Discord"` to `"#irc"` as the
claim states, but looking the inverse map up at `"#irc"` returns the Discord
key exactly as given (`"#Discord"`), not its lowercase form `"#discord"`. -/
theorem c1_counterexample :
    validMapping [("#Discord", "#irc")] = true ∧
    forwardLookup (buildChannelMapping [("#Discord", "#irc")]) "#Discord" =
      some "#irc" ∧
    invertLookup (buildChannelMapping [("#Discord", "#irc")]) "#irc" ≠
      some (jsToLower "#Discord") := by
  decide

/-- Claim C1 (amended): for every raw channel mapping, the forward map sends a
mapped Discord key `c` to the IRC name obtained by splitting the raw value on
the first space, taking the first token and lowercasing it; and, provided the
derived IRC names are pairwise distinct, looking the inverse map up at that
IRC name returns `c` itself, exactly as given (not lowercased). -/
theorem c1_roundtrip :
    (∀ raw c s, rawLookup raw c = some s →
       forwardLookup (buildChannelMapping raw) c = some (ircCanonical s)) ∧
    (∀ raw c v, ((buildChannelMapping raw).map Prod.snd).Nodup →
       forwardLookup (buildChannelMapping raw) c = some v →
       invertLookup (buildChannelMapping raw) v = some c) := by
  exact ⟨fun raw c s h => forwardLookup_build h,
         fun raw c v hnd hf => invertLookup_of_find? hnd hf⟩

/-- Claim C1 witness: the amended round trip evaluated on a concrete two-entry
mapping whose raw IRC value carries a join password and mixed case. -/
theorem c1_roundtrip_witness :
    forwardLookup
      (buildChannelMapping [("#Discord", "#IRC secretpass"), ("#two", "#other")])
      "#Discord" = some "#irc" ∧
    invertLookup
      (buildChannelMapping [("#Discord", "#IRC secretpass"), ("#two", "#other")])
      "#irc" = some "#Discord" := by
  refine ⟨?_, ?_⟩
  · exact c1_roundtrip.1 _ "#Discord" "#IRC secretpass" (by decide)
  · exact c1_roundtrip.2 _ "#Discord" "#irc" (by decide)
      (c1_roundtrip.1 _ "#Discord" "#IRC secretpass" (by decide))

/-! ## Discord-side data model

`discord.js` collections are embedded as lists in insertion order;
`collection.find(prop, value)` is first-match lookup on that property and
`collection.get(key)` is lookup by the (unique) key. -/

structure DUser where
  id : String
  username : String

structure GuildMember where
  id : String
  nickname : Option String

structure DiscordChannel where
  id : String
  name : String
  type : String
  guildMembers : List GuildMember

structure Msg where
  author : DUser
  channelName : String
  content : String
  mentionUsers : List DUser
  guild : List GuildMember
  attachments : List String

structure BotState where
  selfId : String
  channelMapping : List (String × String)
  channels : List DiscordChannel
  users : List DUser
  commandCharacters : List Char
  ircNickColor : Bool

deriving instance DecidableEq for DUser
deriving instance DecidableEq for GuildMember
deriving instance DecidableEq for DiscordChannel
deriving instance DecidableEq for Msg
deriving instance DecidableEq for BotState

/-! ## Character classes of the JS regexes involved -/

/-- JS regex `\s` (the whitespace class), restricted to the ASCII escapes the
messages at issue can contain. -/
def jsIsSpace (c : Char) : Bool :=
  c = ' ' || c = '\t' || c = '\n' || c = '\r' || c = '\x0b' || c = '\x0c'

/-- JS regex `\w`: `[A-Za-z0-9_]`. -/
def isWordChar (c : Char) : Bool :=
  c.isAlphanum || c = '_'

/-! ## `Bot.getDiscordNicknameOnServer` (bot.js lines 122-128) -/

/-- `guild.members.find('id', user.id)`, then `userDetails.nickname ||
user.username` (a missing member, an unset nickname and an empty nickname all
fall back to the global username, exactly as JS truthiness does). -/
def getDiscordNicknameOnServer (user : DUser) (guild : List GuildMember) : String :=
  match guild.find? (fun m => m.id == user.id) with
  | some userDetails =>
    match userDetails.nickname with
    | some n => if n = "" then user.username else n
    | none => user.username
  | none => user.username

/-! ## `Bot.parseText` (bot.js lines 130-145) -/

/-- `String.prototype.replace` with a **string** pattern: replaces only the
first occurrence, or returns the string unchanged when the pattern does not
occur. -/
def replaceFirstL (pat rep : List Char) : List Char → List Char
  | [] => if pat.isPrefixOf ([] : List Char) then rep else []
  | c :: rest =>
    if pat.isPrefixOf (c :: rest) then rep ++ (c :: rest).drop pat.length
    else c :: replaceFirstL pat rep rest

def replaceFirst (s pat rep : String) : String :=
  String.mk (replaceFirstL pat.data rep.data s.data)

/-- The `message.mentions.users.reduce` chain: for each mentioned user, the
first occurrences of `<@id>`, `<@!id>` and `<@&id>` (in that order) are each
replaced by `@displayName`. -/
def mentionsPassL (users : List DUser) (guild : List GuildMember)
    (content : List Char) : List Char :=
  users.foldl
    (fun text u =>
      let rep := '@' :: (getDiscordNicknameOnServer u guild).data
      let t1 := replaceFirstL ('<' :: '@' :: (u.id.data ++ ['>'])) rep text
      let t2 := replaceFirstL ('<' :: '@' :: '!' :: (u.id.data ++ ['>'])) rep t1
      replaceFirstL ('<' :: '@' :: '&' :: (u.id.data ++ ['>'])) rep t2)
    content

/-- `.replace(/\n|\r\n|\r/g, ' ')`: every line-break variant becomes a single
space (`\r\n` is one match because the `\r\n` alternative fires at `\r`). -/
def newlinePassL : List Char → List Char
  | [] => []
  | '\r' :: '\n' :: rest => ' ' :: newlinePassL rest
  | '\n' :: rest => ' ' :: newlinePassL rest
  | '\r' :: rest => ' ' :: newlinePassL rest
  | c :: rest => c :: newlinePassL rest

/-- Attempt to match the tail of `/<#(\d+)>/` right after `<#`: a nonempty
digit run followed by `>`.  Returns the captured id and the remainder. -/
def parseChannelRef (cs : List Char) : Option (String × List Char) :=
  match cs.takeWhile Char.isDigit, cs.drop (cs.takeWhile Char.isDigit).length with
  | _ :: _, '>' :: rest => some (String.mk (cs.takeWhile Char.isDigit), rest)
  | _, _ => none

/-- `.replace(/<#(\d+)>/g, ...)` with the callback
`channel => '#' + this.discord.channels.get(channelId).name`: an id that
`channels.get` does not resolve makes the callback throw (`channel` is
`undefined`), embedded as `none`.  The `Nat` argument is recursion fuel; the
wrapper supplies the input length, which the scan never exceeds since every
step consumes at least one character. -/
def channelRefAux (chans : List DiscordChannel) : Nat → List Char → Option (List Char)
  | _, [] => some []
  | 0, _ :: _ => none
  | fuel + 1, c :: rest =>
    if c = '<' then
      match rest with
      | '#' :: rest2 =>
        match parseChannelRef rest2 with
        | some (cid, rem) =>
          match chans.find? (fun ch => ch.id == cid) with
          | some ch => (channelRefAux chans fuel rem).map (fun t => '#' :: (ch.name.data ++ t))
          | none => none
        | none => (channelRefAux chans fuel rest).map (fun t => c :: t)
      | _ => (channelRefAux chans fuel rest).map (fun t => c :: t)
    else (channelRefAux chans fuel rest).map (fun t => c :: t)

def channelRefPassL (chans : List DiscordChannel) (cs : List Char) : Option (List Char) :=
  channelRefAux chans cs.length cs

/-- Attempt to match the tail of `/<(:\w+:)\d+>/` right after `<:`: a nonempty
`\w` run, a `:`, a nonempty digit run and `>`.  Returns the emote name (without
the colons) and the remainder. -/
def parseEmote (cs : List Char) : Option (String × List Char) :=
  match cs.takeWhile isWordChar, cs.drop (cs.takeWhile isWordChar).length with
  | _ :: _, ':' :: rest2 =>
    match rest2.takeWhile Char.isDigit, rest2.drop (rest2.takeWhile Char.isDigit).length with
    | _ :: _, '>' :: rest3 => some (String.mk (cs.takeWhile isWordChar), rest3)
    | _, _ => none
  | _, _ => none

/-- `.replace(/<(:\w+:)\d+>/g, (match, emoteName) => emoteName)`: a custom
emote token collapses to `:name:`. -/
def emotePassAux : Nat → List Char → List Char
  | _, [] => []
  | 0, l => l
  | fuel + 1, c :: rest =>
    if c = '<' then
      match rest with
      | ':' :: rest2 =>
        match parseEmote rest2 with
        | some (name, rem) => ':' :: (name.data ++ (':' :: emotePassAux fuel rem))
        | none => c :: emotePassAux fuel rest
      | _ => c :: emotePassAux fuel rest
    else c :: emotePassAux fuel rest

def emotePassL (cs : List Char) : List Char :=
  emotePassAux cs.length cs

/-- `Bot.parseText`: mention substitution, newline folding, channel-reference
substitution (which can throw) and emote collapsing, in source order. -/
def parseText (bot : BotState) (msg : Msg) : Option String :=
  (channelRefPassL bot.channels
      (newlinePassL (mentionsPassL msg.mentionUsers msg.guild msg.content.data))).map
    (fun t => String.mk (emotePassL t))

/-! ## Nick colors (bot.js lines 9-10 and 165-168) -/

def NICK_COLORS : List String :=
  ["light_blue", "dark_blue", "light_red", "dark_red", "light_green",
   "dark_green", "magenta", "light_magenta", "orange", "yellow", "cyan", "light_cyan"]

/-- JS `string.length`: the number of UTF-16 code units. -/
def utf16Len (s : String) : Nat :=
  (s.data.map (fun c => if c.toNat ≥ 0x10000 then 2 else 1)).sum

/-- JS `string.charCodeAt(0)`: the first UTF-16 code unit — the code point for
BMP characters, the high surrogate for astral ones.  (`charCodeAt` of an empty
string is `NaN`; the bot only applies it to non-empty nicknames, so the `0`
default is never observed by the claims.) -/
def utf16First (s : String) : Nat :=
  match s.data with
  | [] => 0
  | c :: _ => if c.toNat ≥ 0x10000 then 0xD800 + (c.toNat - 0x10000) / 0x400 else c.toNat

/-- `(nickname.charCodeAt(0) + nickname.length) % NICK_COLORS.length`, then the
color at that index. -/
def colorFor (name : String) : String :=
  NICK_COLORS.getD ((utf16First name + utf16Len name) % NICK_COLORS.length) ""

/-- The color-code table of the node-irc dependency (`irc.colors`). -/
def ircColorCodes : List (String × String) :=
  [("white", "00"), ("black", "01"), ("dark_blue", "02"), ("dark_green", "03"),
   ("light_red", "04"), ("dark_red", "05"), ("magenta", "06"), ("orange", "07"),
   ("yellow", "08"), ("light_green", "09"), ("cyan", "10"), ("light_cyan", "11"),
   ("light_blue", "12"), ("light_magenta", "13"), ("gray", "14"), ("light_gray", "15")]

/-- `irc.colors.wrap(color, text)` from the node-irc dependency: prepends
`\x03` plus the two-digit code and appends the reset control character. -/
def wrapColor (color text : String) : String :=
  match ircColorCodes.find? (fun p => p.1 == color) with
  | some p => "\x03" ++ p.2 ++ text ++ "\x0f"
  | none => text

/-! ## `Bot.isCommandMessage` and `Bot.sendToIRC` (bot.js lines 147-190) -/

/-- `this.commandCharacters.indexOf(message[0]) !== -1`: true iff the first
character of the text is a configured command character (an empty text has no
first character, and `indexOf(undefined)` is `-1`). -/
def isCommandMessage (commandCharacters : List Char) (text : String) : Bool :=
  match text.data with
  | [] => false
  | c :: _ => commandCharacters.contains c

/-- The `displayUsername` computed in `sendToIRC`: the guild nickname, wrapped
in the deterministic nick color when `ircNickColor` is enabled. -/
def displayUsername (bot : BotState) (msg : Msg) : String :=
  let nickname := getDiscordNicknameOnServer msg.author msg.guild
  if bot.ircNickColor then wrapColor (colorFor nickname) nickname else nickname

/-- `Bot.sendToIRC`, as the list of `ircClient.say(channel, text)` calls the
handler issues for one inbound Discord message; `none` embeds an exception
thrown before any call (which can only come from `parseText`). -/
def sendToIRC (bot : BotState) (msg : Msg) : Option (List (String × String)) :=
  if msg.author.id = bot.selfId then some []
  else
    match forwardLookup bot.channelMapping ("#" ++ msg.channelName) with
    | none => some []
    | some ircChannel =>
      let nickname := getDiscordNicknameOnServer msg.author msg.guild
      match parseText bot msg with
      | none => none
      | some text =>
        let displayUsername := displayUsername bot msg
        if isCommandMessage bot.commandCharacters text then
          some [(ircChannel, "Command sent from Discord by " ++ nickname ++ ":"),
                (ircChannel, text)]
        else
          some ((if text = "" then [] else
            [(ircChannel, "<" ++ displayUsername ++ "> " ++ text)]) ++
          msg.attachments.map (fun url => (ircChannel, "<" ++ displayUsername ++ "> " ++ url)))

/-- A concrete bot fixture mirroring the repository's `single-test-config`:
one bridged channel pair `#discord -> #irc` (with a join key in the raw
value), one known Discord channel, `!` as command character, colors on. -/
def sampleBot : BotState :=
  { selfId := "botid"
    channelMapping := buildChannelMapping [("#discord", "#irc channelKey")]
    channels := [{ id := "1234", name := "discord", type := "text", guildMembers := [] }]
    users := []
    commandCharacters := ['!']
    ircNickColor := true }

/-- A concrete inbound Discord message fixture from a non-bot author. -/
def sampleMsg (content : String) : Msg :=
  { author := { id := "notbot", username := "otherauthor" }
    channelName := "discord"
    content := content
    mentionUsers := []
    guild := []
    attachments := [] }


/-! ## IRC → Discord mention resolution (bot.js lines 192-229)

The regex `/@[^\s]+\b/g` matches an `@` followed by a nonempty run of
non-whitespace characters, backtracked to the longest prefix that ends on a
word boundary (`\b`).  `boundaryOk run n` decides whether a boundary lies
right after the first `n` characters of the whitespace-free run: the
character before the boundary must differ in `\w`-ness from the character
after it, and the position right after the run (whitespace or end of input)
counts as a non-word position. -/

def boundaryOk (run : List Char) (n : Nat) : Bool :=
  match run.drop (n - 1) with
  | [] => false
  | a :: tail =>
    match tail with
    | [] => isWordChar a
    | b :: _ => isWordChar a != isWordChar b

/-- The backtracking search of `[^\s]+\b`: the largest `n` with
`1 ≤ n ≤ k` whose boundary check succeeds (the regex engine tries the longest
run first and gives back one character at a time). -/
def findTokenLen (k : Nat) (run : List Char) : Option Nat :=
  match k with
  | 0 => none
  | n + 1 => if boundaryOk run (n + 1) then some (n + 1) else findTokenLen n run

/-- Length of the token matched right after an `@`, if any. -/
def tokenLen (cs : List Char) : Option Nat :=
  findTokenLen (cs.takeWhile (fun c => !jsIsSpace c)).length
    (cs.takeWhile (fun c => !jsIsSpace c))

/-- The string interpolation of a resolved user/member: discord.js renders a
user object as its mention token `<@id>`. -/
def mentionForm (id : String) : String := "<@" ++ id ++ ">"

/-- The replacement callback (bot.js lines 206-223): guild nickname first;
else a global username match, substituted only after checking the matched
user's guild nickname — reading `.nickname` off `guild.members.find('id', …)`
throws when that user is not a guild member, embedded as `none`. -/
def resolveMention (members : List GuildMember) (users : List DUser)
    (search : String) : Option String :=
  match members.find? (fun m => m.nickname == some search) with
  | some nickUser => some (mentionForm nickUser.id)
  | none =>
    match users.find? (fun u => u.username == search) with
    | some user =>
      match members.find? (fun m => m.id == user.id) with
      | none => none
      | some gm =>
        match gm.nickname with
        | none => some (mentionForm user.id)
        | some nickname =>
          if nickname = search then some (mentionForm user.id)
          else some ("@" ++ search)
    | none => some ("@" ++ search)

/-- `text.replace(/@[^\s]+\b/g, callback)`: a left-to-right scan; at each `@`
the token is matched (if possible), resolved, and scanning resumes after the
match.  The `Nat` argument is recursion fuel; the wrapper supplies the input
length, which suffices since every step consumes at least the leading
character. -/
def toDiscordAux (members : List GuildMember) (users : List DUser) :
    Nat → List Char → Option (List Char)
  | _, [] => some []
  | 0, _ :: _ => none
  | fuel + 1, c :: rest =>
    if c = '@' then
      match tokenLen rest with
      | some n =>
        match resolveMention members users (String.mk (rest.take n)) with
        | none => none
        | some repl => (toDiscordAux members users fuel (rest.drop n)).map
            (fun t => repl.data ++ t)
      | none => (toDiscordAux members users fuel rest).map (fun t => c :: t)
    else (toDiscordAux members users fuel rest).map (fun t => c :: t)

def toDiscordMentions (members : List GuildMember) (users : List DUser)
    (text : String) : Option String :=
  (toDiscordAux members users text.data.length text.data).map String.mk

/-- `Bot.sendToDiscord`, as the list of `discordChannel.sendMessage(text)`
calls (paired with the resolved channel name) the handler issues; `none`
embeds an exception thrown by the mention-resolution callback. -/
def sendToDiscord (bot : BotState) (author channel text : String) :
    Option (List (String × String)) :=
  match invertLookup bot.channelMapping (jsToLower channel) with
  | none => some []
  | some discordChannelName =>
    match (bot.channels.filter (fun c => c.type == "text")).find?
        (fun c => c.name == String.mk (discordChannelName.data.drop 1)) with
    | none => some []
    | some discordChannel =>
      match toDiscordMentions discordChannel.guildMembers bot.users text with
      | none => none
      | some withMentions =>
        some [(discordChannel.name, "**<" ++ author ++ ">** " ++ withMentions)]

/-- A bot fixture for the IRC → Discord direction: the bridged text channel
carries one guild member (no nickname) matching the known user `testuser`. -/
def sampleBotD : BotState :=
  { sampleBot with
    channels := [{ id := "1234", name := "discord", type := "text",
                   guildMembers := [{ id := "123", nickname := none }] }]
    users := [{ id := "123", username := "testuser" }] }


/-! ## The `invite` listener (bot.js lines 105-113) -/

/-- The `ircClient.on('invite', ...)` handler, as the list of
`ircClient.join(channel)` calls it issues: the raw invited channel name is
looked up in `invertedMapping` (no lowercasing here) and the join happens only
when the value is truthy (a JS empty string is falsy). -/
def handleInvite (bot : BotState) (channel : String) : List String :=
  match invertLookup bot.channelMapping channel with
  | none => []
  | some discordChan => if discordChan = "" then [] else [channel]

/-! ## Claims C5-C10 -/

/-- Claim C5: an inbound message whose source channel is absent from the
channel mapping produces zero send calls and raises no error, in either
direction. -/
theorem c5_unmapped_drop :
    (∀ bot msg, forwardLookup bot.channelMapping ("#" ++ msg.channelName) = none →
       sendToIRC bot msg = some []) ∧
    (∀ bot author channel text,
       invertLookup bot.channelMapping (jsToLower channel) = none →
       sendToDiscord bot author channel text = some []) := by
  refine ⟨fun bot msg hmap => ?_, fun bot author channel text hmap => ?_⟩
  · by_cases hself : msg.author.id = bot.selfId
    · simp [sendToIRC, hself]
    · simp [sendToIRC, hself, hmap]
  · simp [sendToDiscord, hmap]

/-- Claim C5 witness: a Discord message in `#wrongdiscord` and an IRC message
in `#otherirc`, neither of which is bridged by the sample mapping. -/
theorem c5_unmapped_drop_witness :
    sendToIRC sampleBot { sampleMsg "hello" with channelName := "wrongdiscord" }
      = some [] ∧
    sendToDiscord sampleBotD "user" "#otherirc" "message" = some [] := by
  exact ⟨c5_unmapped_drop.1 sampleBot _ (by decide),
         c5_unmapped_drop.2 sampleBotD "user" "#otherirc" "message" (by decide)⟩

/-- Claim C6: a Discord message authored by the bridge's own Discord identity
never reaches an IRC send call, regardless of channel or content. -/
theorem c6_self_loop_prevention (bot : BotState) (msg : Msg)
    (h : msg.author.id = bot.selfId) :
    sendToIRC bot msg = some [] := by
  simp [sendToIRC, h]

/-- Claim C6 witness: a message from the bot's own identity in a bridged
channel yields no say call. -/
theorem c6_self_loop_prevention_witness :
    sendToIRC sampleBot
      { sampleMsg "hello" with author := { id := "botid", username := "bot" } }
      = some [] :=
  c6_self_loop_prevention sampleBot _ (by decide)

/-- Claim C7: with the default empty command-character set no text is ever a
command; and a mapped, non-self Discord message whose transformed body is a
command produces exactly two say calls: the prelude naming the plain,
uncolored nickname, then the transformed body itself. -/
theorem c7_command_routing :
    (∀ text, isCommandMessage [] text = false) ∧
    (∀ bot msg ircChannel text,
       msg.author.id ≠ bot.selfId →
       forwardLookup bot.channelMapping ("#" ++ msg.channelName) = some ircChannel →
       parseText bot msg = some text →
       isCommandMessage bot.commandCharacters text = true →
       sendToIRC bot msg = some
         [(ircChannel, "Command sent from Discord by " ++
             getDiscordNicknameOnServer msg.author msg.guild ++ ":"),
          (ircChannel, text)]) := by
  refine ⟨fun text => ?_, fun bot msg ircChannel text hself hmap hparse hcmd => ?_⟩
  · rw [isCommandMessage]
    match text.data with
    | [] => rfl
    | c :: _ => rfl
  · simp [sendToIRC, hself, hmap, hparse, hcmd]

/-- Claim C7 witness: the body `!test command` with prefix `!` configured
yields exactly the prelude line and the body line. -/
theorem c7_command_routing_witness :
    isCommandMessage [] "!test command" = false ∧
    sendToIRC sampleBot (sampleMsg "!test command") = some
      [("#irc", "Command sent from Discord by otherauthor:"),
       ("#irc", "!test command")] := by
  exact ⟨c7_command_routing.1 "!test command",
         c7_command_routing.2 sampleBot (sampleMsg "!test command") "#irc"
           "!test command" (by decide) (by decide) (by decide) (by decide)⟩

/-- Claim C8: for a mapped non-command Discord message the body line and the
attachment lines are independent: a non-empty body yields the body line first
and then one line per attachment URL in order; an empty body yields exactly
the attachment lines and no blank body line. -/
theorem c8_attachment_lines (bot : BotState) (msg : Msg) (ircChannel text : String)
    (hself : msg.author.id ≠ bot.selfId)
    (hmap : forwardLookup bot.channelMapping ("#" ++ msg.channelName) = some ircChannel)
    (hparse : parseText bot msg = some text)
    (hcmd : isCommandMessage bot.commandCharacters text = false) :
    (text ≠ "" → sendToIRC bot msg = some
       ((ircChannel, "<" ++ displayUsername bot msg ++ "> " ++ text) ::
        msg.attachments.map
          (fun url => (ircChannel, "<" ++ displayUsername bot msg ++ "> " ++ url)))) ∧
    (text = "" → sendToIRC bot msg = some
       (msg.attachments.map
          (fun url => (ircChannel, "<" ++ displayUsername bot msg ++ "> " ++ url)))) := by
  constructor
  · intro hne
    simp [sendToIRC, hself, hmap, hparse, hcmd, hne]
  · intro he
    subst he
    simp [sendToIRC, hself, hmap, hparse, hcmd]

/-- Claim C8 witness: a body with one attachment gives the body line then the
attachment line; an empty body with one attachment gives only the attachment
line. -/
theorem c8_attachment_lines_witness :
    sendToIRC sampleBot
      { sampleMsg "Look!" with attachments := ["https://image/url.jpg"] } = some
      [("#irc", "<\x0304otherauthor\x0f> Look!"),
       ("#irc", "<\x0304otherauthor\x0f> https://image/url.jpg")] ∧
    sendToIRC sampleBot
      { sampleMsg "" with attachments := ["https://image/url.jpg"] } = some
      [("#irc", "<\x0304otherauthor\x0f> https://image/url.jpg")] := by
  constructor
  · exact (c8_attachment_lines sampleBot
      { sampleMsg "Look!" with attachments := ["https://image/url.jpg"] }
      "#irc" "Look!" (by decide) (by decide) (by decide) (by decide)).1 (by decide)
  · exact (c8_attachment_lines sampleBot
      { sampleMsg "" with attachments := ["https://image/url.jpg"] }
      "#irc" "" (by decide) (by decide) (by decide) (by decide)).2 rfl

/-- The color formula exactly as the claim words it: the **code point** of the
first character plus the **number of characters**, mod 12, indexing the fixed
color list. -/
def codepointColorFor (name : String) : String :=
  NICK_COLORS.getD (((name.data.headD ' ').toNat + name.data.length) % 12) ""

theorem utf16LenL_of_bmp (l : List Char) (h : ∀ c ∈ l, c.toNat < 0x10000) :
    (l.map (fun c => if c.toNat ≥ 0x10000 then 2 else 1)).sum = l.length := by
  induction l with
  | nil => rfl
  | cons c t ih =>
    simp only [List.map_cons, List.sum_cons, List.length_cons]
    rw [if_neg (by have := h c (by simp); omega)]
    rw [ih (fun x hx => h x (by simp [hx]))]
    omega

theorem utf16Len_of_bmp {s : String} (h : ∀ c ∈ s.data, c.toNat < 0x10000) :
    utf16Len s = s.data.length :=
  utf16LenL_of_bmp s.data h

/-- Claim C9 counterexample: on the name `"😀"` (one astral character) the
code assigns the color from the first UTF-16 code unit (the high surrogate
`0xD83D`) and the UTF-16 length `2`, giving `dark_red`, while the claim's
code-point formula gives `dark_green`. -/
theorem c9_counterexample :
    colorFor "😀" ≠ codepointColorFor "😀" ∧
    colorFor "😀" = "dark_red" ∧
    codepointColorFor "😀" = "dark_green" := by
  decide

/-- Claim C9 (amended): `colorFor` is a pure function of the name; for every
non-empty name the assigned color is the element at index (first UTF-16 code
unit of the name + UTF-16 length of the name) mod 12 of the fixed 12-color
list — which coincides with the claim's (code point of the first character +
number of characters) mod 12 whenever the name contains only basic-plane
characters. -/
theorem c9_color_formula :
    (∀ name : String, name ≠ "" →
       colorFor name ∈ NICK_COLORS ∧
       colorFor name = NICK_COLORS.getD ((utf16First name + utf16Len name) % 12) "") ∧
    (∀ name : String, name ≠ "" → (∀ c ∈ name.data, c.toNat < 0x10000) →
       colorFor name = codepointColorFor name) := by
  constructor
  · intro name hne
    have hlt : (utf16First name + utf16Len name) % NICK_COLORS.length <
        NICK_COLORS.length := Nat.mod_lt _ (by decide)
    constructor
    · rw [colorFor, List.getD_eq_getElem?_getD, List.getElem?_eq_getElem hlt]
      simp only [Option.getD_some]
      exact List.getElem_mem hlt
    · rfl
  · intro name hne hbmp
    have hdata : name.data ≠ [] := by
      intro hd
      exact hne (by rw [show name = String.mk name.data from rfl, hd])
    have hfirst : utf16First name = (name.data.headD ' ').toNat := by
      rw [utf16First]
      rcases hd : name.data with _ | ⟨c, t⟩
      · exact absurd hd hdata
      · simp only [List.headD_cons]
        exact if_neg (by have := hbmp c (by simp [hd]); omega)
    rw [colorFor, codepointColorFor, utf16Len_of_bmp hbmp, hfirst]
    rfl

/-- Claim C9 witness: the amended formula evaluated at the ASCII name
`"testuser"`, where code-unit and code-point formulas agree. -/
theorem c9_color_formula_witness :
    colorFor "testuser" ∈ NICK_COLORS ∧
    colorFor "testuser" = codepointColorFor "testuser" := by
  exact ⟨(c9_color_formula.1 "testuser" (by decide)).1,
         c9_color_formula.2 "testuser" (by decide) (by decide)⟩

/-- Claim C10: an IRC invite triggers a join call if and only if the invited
channel name, exactly as delivered, is a key of the inverted mapping (a value
of the stored channel mapping); an invite for an unmapped channel never joins.
The hypothesis that Discord keys are non-empty comes from configuration
validation (spec §4.1), which makes the truthiness test on the looked-up
value equivalent to presence. -/
theorem c10_invite_join (bot : BotState) (channel : String)
    (hkeys : ∀ p ∈ bot.channelMapping, p.1 ≠ "") :
    (handleInvite bot channel = [channel] ↔
       channel ∈ bot.channelMapping.map Prod.snd) ∧
    (channel ∉ bot.channelMapping.map Prod.snd → handleInvite bot channel = []) := by
  have hiff : (invertLookup bot.channelMapping channel).isSome ↔
      channel ∈ bot.channelMapping.map Prod.snd := by
    rw [invertLookup]
    constructor
    · intro hs
      rcases hq : bot.channelMapping.reverse.find? (fun p => p.2 == channel) with _ | q
      · rw [hq] at hs; simp at hs
      · have hqm := List.mem_of_find?_eq_some hq
        have hqe : q.2 = channel := by simpa using List.find?_some hq
        rw [List.mem_reverse] at hqm
        exact hqe ▸ List.mem_map_of_mem Prod.snd hqm
    · intro hm
      obtain ⟨q, hqm, hqe⟩ := List.mem_map.mp hm
      have hex : (bot.channelMapping.reverse.find? (fun p => p.2 == channel)).isSome :=
        List.find?_isSome.mpr ⟨q, List.mem_reverse.mpr hqm, by simp [hqe]⟩
      rcases hq : bot.channelMapping.reverse.find? (fun p => p.2 == channel) with _ | q'
      · rw [hq] at hex; simp at hex
      · rw [hq]; simp
  rcases h : invertLookup bot.channelMapping channel with _ | d
  · rw [h] at hiff
    have hnotmem : channel ∉ bot.channelMapping.map Prod.snd := by
      intro hm
      have := hiff.mpr hm
      simp at this
    refine ⟨?_, fun _ => by simp [handleInvite, h]⟩
    constructor
    · intro hj
      rw [handleInvite, h] at hj
      simp at hj
    · intro hm
      exact absurd hm hnotmem
  · have hmem : channel ∈ bot.channelMapping.map Prod.snd := by
      rw [h] at hiff
      exact hiff.mp (by simp)
    have hd : d ≠ "" := by
      rw [invertLookup, Option.map_eq_some'] at h
      obtain ⟨q, hq, hqd⟩ := h
      have hqm := List.mem_of_find?_eq_some hq
      rw [List.mem_reverse] at hqm
      exact hqd ▸ hkeys q hqm
    refine ⟨?_, fun hm => absurd hmem hm⟩
    simp [handleInvite, h, hd, hmem]

/-- Claim C10 witness: an invite for the mapped name `#irc` joins; an invite
for `#IRC` (not a key of the inverted mapping — the stored names are
lowercased and this lookup does not lowercase) does not join. -/
theorem c10_invite_join_witness :
    handleInvite sampleBot "#irc" = ["#irc"] ∧
    handleInvite sampleBot "#IRC" = [] := by
  exact ⟨(c10_invite_join sampleBot "#irc" (by decide)).1.mpr (by decide),
         (c10_invite_join sampleBot "#IRC" (by decide)).2 (by decide)⟩

/-! ## Claim C3: user-mention substitution in `parseText` -/

/-- No `<` occurs in the list — the guard under which a chunk of text cannot
contain (part of) a mention token. -/
abbrev noLT (l : List Char) : Prop := ∀ c ∈ l, c ≠ '<'

/-- The three encodings of a user mention, over the raw id characters. -/
inductive MentionVariant
  | plain
  | nick
  | role

def mentionTokenL : MentionVariant → List Char → List Char
  | .plain, id => '<' :: '@' :: (id ++ ['>'])
  | .nick, id => '<' :: '@' :: '!' :: (id ++ ['>'])
  | .role, id => '<' :: '@' :: '&' :: (id ++ ['>'])

theorem isPrefixOf_self_append (l r : List Char) : l.isPrefixOf (l ++ r) = true := by
  induction l with
  | nil => simp
  | cons c t ih => simp [List.isPrefixOf_cons₂, ih]

theorem isPrefixOf_append_same (p l1 l2 : List Char) :
    (p ++ l1).isPrefixOf (p ++ l2) = l1.isPrefixOf l2 := by
  induction p with
  | nil => rfl
  | cons c t ih => simpa [List.isPrefixOf_cons₂] using ih

theorem isPrefixOf_cons_ne {a b : Char} (h : a ≠ b) (as bs : List Char) :
    (a :: as).isPrefixOf (b :: bs) = false := by
  simp [List.isPrefixOf_cons₂, h]

theorem digit_ne {d c : Char} (h : d.isDigit = true) (hc : c.isDigit = false) : d ≠ c := by
  intro he
  subst he
  rw [h] at hc
  simp at hc

theorem replaceFirstL_cons_nomatch {pat rep : List Char} {c : Char} {s : List Char}
    (h : pat.isPrefixOf (c :: s) = false) :
    replaceFirstL pat rep (c :: s) = c :: replaceFirstL pat rep s := by
  simp [replaceFirstL, h]

theorem replaceFirstL_exact (pat rep r : List Char) :
    replaceFirstL pat rep (pat ++ r) = rep ++ r := by
  rcases pat with _ | ⟨p, ps⟩
  · rcases r with _ | ⟨c, s⟩ <;> simp [replaceFirstL]
  · rw [List.cons_append]
    have hpre : (p :: ps).isPrefixOf (p :: (ps ++ r)) = true := by
      exact isPrefixOf_self_append (p :: ps) r
    simp only [replaceFirstL, hpre, if_true]
    rw [← List.cons_append, List.drop_left]

theorem replaceFirstL_no_lt {pt rep : List Char} {s : List Char} (hs : noLT s) :
    replaceFirstL ('<' :: pt) rep s = s := by
  induction s with
  | nil => simp [replaceFirstL]
  | cons c t ih =>
    have hc : c ≠ '<' := hs c (by simp)
    rw [replaceFirstL_cons_nomatch (isPrefixOf_cons_ne (Ne.symm hc) pt t)]
    rw [ih (fun x hx => hs x (by simp [hx]))]

theorem replaceFirstL_append_left {pt rep : List Char} {x : List Char} (hx : noLT x)
    (s : List Char) :
    replaceFirstL ('<' :: pt) rep (x ++ s) = x ++ replaceFirstL ('<' :: pt) rep s := by
  induction x with
  | nil => rfl
  | cons c t ih =>
    have hc : c ≠ '<' := hx c (by simp)
    rw [List.cons_append,
      replaceFirstL_cons_nomatch (isPrefixOf_cons_ne (Ne.symm hc) pt (t ++ s)),
      ih (fun z hz => hx z (by simp [hz])), List.cons_append]

theorem noLT_append {a b : List Char} (ha : noLT a) (hb : noLT b) : noLT (a ++ b) := by
  intro c hc
  rcases List.mem_append.mp hc with h | h
  · exact ha c h
  · exact hb c h

theorem noLT_cons {c : Char} {l : List Char} (hc : c ≠ '<') (hl : noLT l) :
    noLT (c :: l) := by
  intro z hz
  rcases List.mem_cons.mp hz with rfl | h
  · exact hc
  · exact hl z h

theorem noLT_digits {l : List Char} (h : ∀ c ∈ l, c.isDigit = true) : noLT l :=
  fun c hc => digit_ne (h c hc) (by decide)

theorem c3_core (v : MentionVariant) (x y id rep : List Char)
    (hx : noLT x) (hy : noLT y) (hrep : noLT rep)
    (hid : id ≠ []) (hdig : ∀ c ∈ id, c.isDigit = true) :
    replaceFirstL ('<' :: '@' :: '&' :: (id ++ ['>'])) rep
      (replaceFirstL ('<' :: '@' :: '!' :: (id ++ ['>'])) rep
        (replaceFirstL ('<' :: '@' :: (id ++ ['>'])) rep
          (x ++ (mentionTokenL v id ++ y)))) = x ++ (rep ++ y) := by
  obtain ⟨d, ds, rfl⟩ : ∃ d ds, id = d :: ds := by
    cases id with
    | nil => exact absurd rfl hid
    | cons d ds => exact ⟨d, ds, rfl⟩
  have hd : d.isDigit = true := hdig d (by simp)
  have hgt : noLT ['>'] := by
    intro c hc
    simp at hc
    subst hc
    decide
  have hidgt : noLT ((d :: ds) ++ ['>']) := noLT_append (noLT_digits hdig) hgt
  have hfin : noLT (x ++ (rep ++ y)) := noLT_append hx (noLT_append hrep hy)
  cases v with
  | plain =>
    simp only [mentionTokenL]
    rw [replaceFirstL_append_left hx, replaceFirstL_exact]
    rw [replaceFirstL_no_lt hfin, replaceFirstL_no_lt hfin]
  | nick =>
    simp only [mentionTokenL]
    have hpre0 : ('<' :: '@' :: ((d :: ds) ++ ['>'])).isPrefixOf
        ('<' :: ('@' :: '!' :: (((d :: ds) ++ ['>']) ++ y))) = false := by
      show (['<', '@'] ++ (d :: (ds ++ ['>']))).isPrefixOf
        (['<', '@'] ++ ('!' :: (((d :: ds) ++ ['>']) ++ y))) = false
      rw [isPrefixOf_append_same]
      exact isPrefixOf_cons_ne (digit_ne hd (by decide)) _ _
    have htail : noLT ('@' :: '!' :: (((d :: ds) ++ ['>']) ++ y)) :=
      noLT_cons (by decide) (noLT_cons (by decide) (noLT_append hidgt hy))
    have hstep1 : replaceFirstL ('<' :: '@' :: ((d :: ds) ++ ['>'])) rep
        (('<' :: '@' :: '!' :: ((d :: ds) ++ ['>'])) ++ y)
        = ('<' :: '@' :: '!' :: ((d :: ds) ++ ['>'])) ++ y := by
      show replaceFirstL ('<' :: '@' :: ((d :: ds) ++ ['>'])) rep
        ('<' :: ('@' :: '!' :: (((d :: ds) ++ ['>']) ++ y)))
        = '<' :: ('@' :: '!' :: (((d :: ds) ++ ['>']) ++ y))
      rw [replaceFirstL_cons_nomatch hpre0, replaceFirstL_no_lt htail]
    rw [replaceFirstL_append_left hx, hstep1]
    rw [replaceFirstL_append_left hx, replaceFirstL_exact]
    rw [replaceFirstL_no_lt hfin]
  | role =>
    simp only [mentionTokenL]
    have hpre0 : ('<' :: '@' :: ((d :: ds) ++ ['>'])).isPrefixOf
        ('<' :: ('@' :: '&' :: (((d :: ds) ++ ['>']) ++ y))) = false := by
      show (['<', '@'] ++ (d :: (ds ++ ['>']))).isPrefixOf
        (['<', '@'] ++ ('&' :: (((d :: ds) ++ ['>']) ++ y))) = false
      rw [isPrefixOf_append_same]
      exact isPrefixOf_cons_ne (digit_ne hd (by decide)) _ _
    have hpre1 : ('<' :: '@' :: '!' :: ((d :: ds) ++ ['>'])).isPrefixOf
        ('<' :: ('@' :: '&' :: (((d :: ds) ++ ['>']) ++ y))) = false := by
      show (['<', '@'] ++ ('!' :: ((d :: ds) ++ ['>']))).isPrefixOf
        (['<', '@'] ++ ('&' :: (((d :: ds) ++ ['>']) ++ y))) = false
      rw [isPrefixOf_append_same]
      exact isPrefixOf_cons_ne (by decide) _ _
    have htail : noLT ('@' :: '&' :: (((d :: ds) ++ ['>']) ++ y)) :=
      noLT_cons (by decide) (noLT_cons (by decide) (noLT_append hidgt hy))
    have hstep1 : replaceFirstL ('<' :: '@' :: ((d :: ds) ++ ['>'])) rep
        (('<' :: '@' :: '&' :: ((d :: ds) ++ ['>'])) ++ y)
        = ('<' :: '@' :: '&' :: ((d :: ds) ++ ['>'])) ++ y := by
      show replaceFirstL ('<' :: '@' :: ((d :: ds) ++ ['>'])) rep
        ('<' :: ('@' :: '&' :: (((d :: ds) ++ ['>']) ++ y)))
        = '<' :: ('@' :: '&' :: (((d :: ds) ++ ['>']) ++ y))
      rw [replaceFirstL_cons_nomatch hpre0, replaceFirstL_no_lt htail]
    have hstep2 : replaceFirstL ('<' :: '@' :: '!' :: ((d :: ds) ++ ['>'])) rep
        (('<' :: '@' :: '&' :: ((d :: ds) ++ ['>'])) ++ y)
        = ('<' :: '@' :: '&' :: ((d :: ds) ++ ['>'])) ++ y := by
      show replaceFirstL ('<' :: '@' :: '!' :: ((d :: ds) ++ ['>'])) rep
        ('<' :: ('@' :: '&' :: (((d :: ds) ++ ['>']) ++ y)))
        = '<' :: ('@' :: '&' :: (((d :: ds) ++ ['>']) ++ y))
      rw [replaceFirstL_cons_nomatch hpre1, replaceFirstL_no_lt htail]
    rw [replaceFirstL_append_left hx, hstep1]
    rw [replaceFirstL_append_left hx, hstep2]
    rw [replaceFirstL_append_left hx, replaceFirstL_exact]

/-- Replace **all** occurrences, as the claim words it ("every occurrence of
each user-mention token is replaced").  Fueled scan; fuel = input length
suffices since each step consumes at least one character. -/
def replaceAllAux (pat rep : List Char) : Nat → List Char → List Char
  | _, [] => []
  | 0, l => l
  | fuel + 1, c :: rest =>
    if pat.isPrefixOf (c :: rest) then
      rep ++ replaceAllAux pat rep fuel ((c :: rest).drop pat.length)
    else c :: replaceAllAux pat rep fuel rest

def replaceAllL (pat rep s : List Char) : List Char :=
  replaceAllAux pat rep s.length s

/-- The mention pass exactly as claim C3 words it: every occurrence of each of
the three encodings replaced by `@displayName`. -/
def mentionsPassAllL (users : List DUser) (guild : List GuildMember)
    (content : List Char) : List Char :=
  users.foldl
    (fun text u =>
      let rep := '@' :: (getDiscordNicknameOnServer u guild).data
      let t1 := replaceAllL ('<' :: '@' :: (u.id.data ++ ['>'])) rep text
      let t2 := replaceAllL ('<' :: '@' :: '!' :: (u.id.data ++ ['>'])) rep t1
      replaceAllL ('<' :: '@' :: '&' :: (u.id.data ++ ['>'])) rep t2)
    content

/-- Claim C3 counterexample: for a message mentioning user `1` (username `u`)
whose body contains `<@1>` twice, the code replaces only the **first**
occurrence (`String.prototype.replace` with a string pattern), so the second
`<@1>` survives, while the claim's replace-every-occurrence reading yields
`@u @u`. -/
theorem c3_counterexample :
    mentionsPassL [{ id := "1", username := "u" }] [] "<@1> <@1>".data ≠
      mentionsPassAllL [{ id := "1", username := "u" }] [] "<@1> <@1>".data ∧
    mentionsPassL [{ id := "1", username := "u" }] [] "<@1> <@1>".data =
      "@u <@1>".data ∧
    mentionsPassAllL [{ id := "1", username := "u" }] [] "<@1> <@1>".data =
      "@u @u".data := by
  decide

/-- Claim C3 (amended): in the Discord-to-IRC transform, for each mentioned
user the **first** occurrence of each of the three mention encodings (`<@id>`,
`<@!id>`, `<@&id>`, tried in that order) is replaced with `@<displayName>`,
where displayName is the mentioned user's guild nickname if set and their raw
username otherwise; later duplicate occurrences are left as they are.  Stated
for a body `x ++ token ++ y` whose surrounding text (and the display name)
contains no `<`, so that the named occurrence is the one replaced. -/
theorem c3_mention_substitution (v : MentionVariant) (x y : String) (u : DUser)
    (guild : List GuildMember)
    (hx : noLT x.data) (hy : noLT y.data)
    (hdn : noLT (getDiscordNicknameOnServer u guild).data)
    (hid : u.id.data ≠ []) (hdig : ∀ c ∈ u.id.data, c.isDigit = true) :
    mentionsPassL [u] guild (x.data ++ (mentionTokenL v u.id.data ++ y.data)) =
      x.data ++ (('@' :: (getDiscordNicknameOnServer u guild).data) ++ y.data) := by
  have h := c3_core v x.data y.data u.id.data
    ('@' :: (getDiscordNicknameOnServer u guild).data)
    hx hy (noLT_cons (by decide) hdn) hid hdig
  simpa [mentionsPassL] using h

/-- Claim C3 witness: `<@!123> hi` with mentioned user `testuser` (no guild
nickname) becomes `@testuser hi`. -/
theorem c3_mention_substitution_witness :
    mentionsPassL [{ id := "123", username := "testuser" }] []
      ("".data ++ (mentionTokenL MentionVariant.nick ("123" : String).data ++ " hi".data)) =
      "".data ++ (('@' :: (getDiscordNicknameOnServer
        { id := "123", username := "testuser" } []).data) ++ " hi".data) :=
  c3_mention_substitution MentionVariant.nick "" " hi"
    { id := "123", username := "testuser" } []
    (by decide) (by decide) (by decide) (by decide) (by decide)

/-! ## Claim C4: unresolved channel references -/

theorem parseChannelRef_exact {id : List Char} (hne : id ≠ [])
    (hdig : ∀ c ∈ id, c.isDigit = true) (post : List Char) :
    parseChannelRef (id ++ '>' :: post) = some (String.mk id, post) := by
  obtain ⟨d, ds, rfl⟩ : ∃ d ds, id = d :: ds := by
    cases id with
    | nil => exact absurd rfl hne
    | cons d ds => exact ⟨d, ds, rfl⟩
  have ht : ((d :: ds) ++ '>' :: post).takeWhile Char.isDigit = d :: ds := by
    rw [List.takeWhile_append_of_pos hdig,
      List.takeWhile_cons_of_neg (by decide : ¬ Char.isDigit '>' = true),
      List.append_nil]
  unfold parseChannelRef
  rw [ht, List.drop_left]
  rfl

theorem channelRefAux_token_none (chans : List DiscordChannel) {id : List Char}
    (hne : id ≠ []) (hdig : ∀ c ∈ id, c.isDigit = true)
    (hfind : chans.find? (fun ch => ch.id == String.mk id) = none)
    (post : List Char) :
    ∀ fuel, channelRefAux chans fuel ('<' :: '#' :: (id ++ '>' :: post)) = none := by
  intro fuel
  cases fuel with
  | zero => rfl
  | succ f =>
    simp only [channelRefAux, if_pos]
    rw [parseChannelRef_exact hne hdig post]
    simp only [hfind]

theorem channelRefAux_prepend_none {chans : List DiscordChannel} {T : List Char}
    (hT : ∀ fuel, channelRefAux chans fuel T = none) :
    ∀ (x : List Char), noLT x → ∀ fuel, channelRefAux chans fuel (x ++ T) = none := by
  intro x
  induction x with
  | nil => exact fun _ fuel => hT fuel
  | cons c xs ih =>
    intro hx fuel
    have hc : c ≠ '<' := hx c (by simp)
    cases fuel with
    | zero => rfl
    | succ f =>
      rw [List.cons_append]
      simp only [channelRefAux]
      rw [if_neg hc, ih (fun z hz => hx z (by simp [hz])) f]
      rfl

/-- Claim C4: a channel-reference token `<#id>` whose id resolves to no
channel makes the whole Discord-to-IRC transform fail — embedded as `none`,
the thrown `TypeError` — and a mapped, non-self message whose transform fails
produces **no** say call at all (the throw happens before any
`ircClient.say`), so no partially-substituted line is ever sent; the failure
is confined to that one message since the handler holds no cross-message
state. -/
theorem c4_unresolved_channel_ref :
    (∀ (chans : List DiscordChannel) (x id post : List Char),
       noLT x → id ≠ [] → (∀ c ∈ id, c.isDigit = true) →
       chans.find? (fun ch => ch.id == String.mk id) = none →
       channelRefPassL chans (x ++ ('<' :: '#' :: (id ++ '>' :: post))) = none) ∧
    (∀ bot msg ircChannel,
       msg.author.id ≠ bot.selfId →
       forwardLookup bot.channelMapping ("#" ++ msg.channelName) = some ircChannel →
       channelRefPassL bot.channels
         (newlinePassL (mentionsPassL msg.mentionUsers msg.guild msg.content.data))
           = none →
       sendToIRC bot msg = none) := by
  constructor
  · intro chans x id post hx hne hdig hfind
    exact channelRefAux_prepend_none
      (channelRefAux_token_none chans hne hdig hfind post) x hx _
  · intro bot msg ircChannel hself hmap hfail
    simp [sendToIRC, parseText, hself, hmap, hfail]

/-- Claim C4 witness: the body `<#9999>` references a channel id unknown to
the sample bot; the pass fails and the message produces no say call. -/
theorem c4_unresolved_channel_ref_witness :
    channelRefPassL sampleBot.channels
      ("".data ++ ('<' :: '#' :: (("9999" : String).data ++ '>' :: ("" : String).data)))
      = none ∧
    sendToIRC sampleBot (sampleMsg "<#9999>") = none := by
  constructor
  · exact c4_unresolved_channel_ref.1 sampleBot.channels "".data "9999".data "".data
      (by decide) (by decide) (by decide) (by decide)
  · exact c4_unresolved_channel_ref.2 sampleBot (sampleMsg "<#9999>") "#irc"
      (by decide) (by decide) (by decide)

/-! ## Claim C2: IRC → Discord mention resolution -/

/-- The resolution policy as the claim words it, as a **total** function:
guild nickname first; else a global-username match substituted only when that
user's guild nickname is unset or identical to the token; otherwise the token
is left unchanged.  (Used by both the claim-as-written and the amended
readings; it differs from the code's `resolveMention` exactly on users that
are not guild members, where the code throws.) -/
def resolveMentionSpec (members : List GuildMember) (users : List DUser)
    (search : String) : String :=
  match members.find? (fun m => m.nickname == some search) with
  | some nickUser => mentionForm nickUser.id
  | none =>
    match users.find? (fun u => u.username == search) with
    | some user =>
      match (members.find? (fun m => m.id == user.id)).bind GuildMember.nickname with
      | none => mentionForm user.id
      | some nickname =>
        if nickname = search then mentionForm user.id else "@" ++ search
    | none => "@" ++ search

/-- The claim exactly as written: the token is the **full** run of
non-whitespace after `@` (no word-boundary backtracking). -/
def toDiscordClaimAux (members : List GuildMember) (users : List DUser) :
    Nat → List Char → List Char
  | _, [] => []
  | 0, l => l
  | fuel + 1, c :: rest =>
    if c = '@' then
      if (rest.takeWhile (fun ch => !jsIsSpace ch)).isEmpty then
        c :: toDiscordClaimAux members users fuel rest
      else
        (resolveMentionSpec members users
            (String.mk (rest.takeWhile (fun ch => !jsIsSpace ch)))).data ++
          toDiscordClaimAux members users fuel
            (rest.drop (rest.takeWhile (fun ch => !jsIsSpace ch)).length)
    else c :: toDiscordClaimAux members users fuel rest

def toDiscordClaimL (members : List GuildMember) (users : List DUser)
    (cs : List Char) : List Char :=
  toDiscordClaimAux members users cs.length cs

/-- The amended reading: same scan as the code (token = longest
whitespace-free prefix ending at a word boundary), with the total resolution
policy of the claim. -/
def toDiscordAmendedAux (members : List GuildMember) (users : List DUser) :
    Nat → List Char → List Char
  | _, [] => []
  | 0, l => l
  | fuel + 1, c :: rest =>
    if c = '@' then
      match tokenLen rest with
      | some n =>
        (resolveMentionSpec members users (String.mk (rest.take n))).data ++
          toDiscordAmendedAux members users fuel (rest.drop n)
      | none => c :: toDiscordAmendedAux members users fuel rest
    else c :: toDiscordAmendedAux members users fuel rest

def toDiscordAmendedL (members : List GuildMember) (users : List DUser)
    (cs : List Char) : List Char :=
  toDiscordAmendedAux members users cs.length cs

/-- Every username-resolvable user is a guild member — the condition under
which the code's `.nickname` access cannot throw. -/
abbrev usersCovered (members : List GuildMember) (users : List DUser) : Prop :=
  ∀ u ∈ users, (members.find? (fun m => m.id == u.id)).isSome

/-- Claim C2 counterexample: on `"@testuser!"` with `testuser` resolvable as a
guild nickname, the code matches the token `testuser` (the regex `\b` backs
off the `!`) and substitutes, while the claim's token (the full non-whitespace
run `testuser!`) resolves to nothing and would leave the text unchanged.
Additionally, on `"@ghost"` where `ghost` resolves by global username but is
not a guild member, the code throws (reading `.nickname` of `undefined`)
instead of substituting or leaving the token unchanged. -/
theorem c2_counterexample :
    toDiscordMentions [{ id := "123", nickname := some "testuser" }]
      [{ id := "123", username := "testuser" }] "@testuser!" = some "<@123>!" ∧
    String.mk (toDiscordClaimL [{ id := "123", nickname := some "testuser" }]
      [{ id := "123", username := "testuser" }] "@testuser!".data) = "@testuser!" ∧
    toDiscordMentions [] [{ id := "9", username := "ghost" }] "@ghost" = none ∧
    String.mk (toDiscordClaimL [] [{ id := "9", username := "ghost" }]
      "@ghost".data) = "<@9>" := by
  decide

theorem resolveMention_covered {members : List GuildMember} {users : List DUser}
    (hcov : usersCovered members users) (search : String) :
    resolveMention members users search =
      some (resolveMentionSpec members users search) := by
  unfold resolveMention resolveMentionSpec
  rcases hn : members.find? (fun m => m.nickname == some search) with _ | nickUser
  · simp only [hn]
    rcases hu : users.find? (fun u => u.username == search) with _ | user
    · simp only [hu]
    · simp only [hu]
      have hc := hcov user (List.mem_of_find?_eq_some hu)
      rcases hm : members.find? (fun m => m.id == user.id) with _ | gm
      · rw [hm] at hc
        simp at hc
      · simp only [hm, Option.some_bind]
        rcases hgm : gm.nickname with _ | nick
        · simp only [hgm]
        · simp only [hgm]
          split <;> rfl
  · simp only [hn]

theorem toDiscordAux_amended {members : List GuildMember} {users : List DUser}
    (hcov : usersCovered members users) :
    ∀ fuel cs, cs.length ≤ fuel →
      toDiscordAux members users fuel cs =
        some (toDiscordAmendedAux members users fuel cs) := by
  intro fuel
  induction fuel with
  | zero =>
    intro cs h
    cases cs with
    | nil => rfl
    | cons c rest => simp at h
  | succ f ih =>
    intro cs h
    cases cs with
    | nil => rfl
    | cons c rest =>
      have hrest : rest.length ≤ f := by
        simp only [List.length_cons] at h
        omega
      by_cases hc : c = '@'
      · simp only [toDiscordAux, toDiscordAmendedAux, if_pos hc]
        rcases ht : tokenLen rest with _ | n
        · dsimp only
          rw [ih rest hrest]
          rfl
        · dsimp only
          rw [resolveMention_covered hcov]
          dsimp only
          rw [ih (rest.drop n) (by simp only [List.length_drop]; omega)]
          rfl
      · simp only [toDiscordAux, toDiscordAmendedAux, if_neg hc]
        rw [ih rest hrest]
        rfl

theorem findTokenLen_spec :
    ∀ (k : Nat) (run : List Char) (n : Nat), findTokenLen k run = some n →
      1 ≤ n ∧ n ≤ k ∧ boundaryOk run n = true ∧
      ∀ m, n < m → m ≤ k → boundaryOk run m = false := by
  intro k
  induction k with
  | zero =>
    intro run n h
    simp [findTokenLen] at h
  | succ j ih =>
    intro run n h
    simp only [findTokenLen] at h
    by_cases hb : boundaryOk run (j + 1) = true
    · rw [if_pos hb] at h
      obtain rfl : j + 1 = n := by simpa using h
      exact ⟨by omega, Nat.le_refl _, hb, fun m h1 h2 => by omega⟩
    · rw [if_neg hb] at h
      obtain ⟨h1, h2, h3, h4⟩ := ih run n h
      refine ⟨h1, by omega, h3, fun m hm1 hm2 => ?_⟩
      rcases Nat.lt_or_ge m (j + 1) with hlt | hge
      · exact h4 m hm1 (by omega)
      · have hmj : m = j + 1 := by omega
        subst hmj
        exact Bool.eq_false_iff.mpr hb

/-- Claim C2 (amended): in the IRC-to-Discord transform, each matched token is
the **longest prefix of the run of non-whitespace after `@` that ends on a
word boundary** (not the full run; an `@` with no such prefix stays as it is),
and — provided every globally username-resolvable user is also a guild member,
without which the code throws instead — each token is resolved by trying the
guild nickname first, then a global-username match guarded by the nickname
being unset or identical to the token, and in every other case the token is
left unchanged. -/
theorem c2_mention_resolution :
    (∀ (k : Nat) (run : List Char) (n : Nat), findTokenLen k run = some n →
       1 ≤ n ∧ n ≤ k ∧ boundaryOk run n = true ∧
       ∀ m, n < m → m ≤ k → boundaryOk run m = false) ∧
    (∀ (members : List GuildMember) (users : List DUser) (text : String),
       usersCovered members users →
       toDiscordMentions members users text =
         some (String.mk (toDiscordAmendedL members users text.data))) := by
  constructor
  · exact findTokenLen_spec
  · intro members users text hcov
    rw [toDiscordMentions, toDiscordAmendedL,
      toDiscordAux_amended hcov text.data.length text.data (Nat.le_refl _)]
    rfl

/-- Claim C2 witness: the nickname mention `@somenickname` inside punctuation
resolves through the amended scan (the sample directory covers its user), and
the token matched in `5pm?` is `5pm`, whose boundary check succeeds. -/
theorem c2_mention_resolution_witness :
    toDiscordMentions [{ id := "123", nickname := some "somenickname" }]
      [{ id := "123", username := "testuser" }] "Hello, @somenickname!" =
      some (String.mk (toDiscordAmendedL
        [{ id := "123", nickname := some "somenickname" }]
        [{ id := "123", username := "testuser" }] "Hello, @somenickname!".data)) ∧
    boundaryOk ("5pm?" : String).data 3 = true := by
  constructor
  · exact c2_mention_resolution.2 _ _ "Hello, @somenickname!" (by decide)
  · exact (c2_mention_resolution.1 4 "5pm?".data 3 (by decide)).2.2.1
